import Mathlib

/-!
Shallow embedding of the `hexx` crate's `Hex` module (`src/hex/mod.rs`).

Coordinates are modelled as unbounded integers (`Int`); the Rust code uses
`i32`/`u32`, and machine-width wrapping is modelled explicitly where a claim
depends on it: the `u32` arithmetic of `range_count`, and the `range as i32`
cast and `i32` bound arithmetic inside `range`.  Fallible operations
(`new_cubic`'s assertion, `neighbor_direction`'s absent result, the `wrap_with`
loop) are modelled with `Option`.
-/

namespace Hexx

/-- Axial hexagonal coordinates: two integer fields `x`, `y`
(struct `Hex` in `src/hex/mod.rs`). -/
structure Hex where
  x : Int
  y : Int
deriving DecidableEq, Repr

/-- `Hex::new`: instantiates a hexagon from axial coordinates. -/
def Hex.new (x y : Int) : Hex := ⟨x, y⟩

/-- `Hex::splat`: all coordinates set to `v`. -/
def Hex.splat (v : Int) : Hex := ⟨v, v⟩

/-- `Hex::new_cubic`: asserts `x + y + z == 0` and keeps `(x, y)`.
The Rust `assert!` (a fatal, unrecoverable stop) is modelled as `none`. -/
def Hex.new_cubic (x y z : Int) : Option Hex :=
  if x + y + z = 0 then some ⟨x, y⟩ else none

/-- `Hex::z`: the derived cubic coordinate `-x - y`. -/
def Hex.z (self : Hex) : Int := -self.x - self.y

/-- `Hex::const_neg`: componentwise negation. -/
def Hex.const_neg (self : Hex) : Hex := ⟨-self.x, -self.y⟩

/-- `Hex::const_add`: componentwise addition (also the `Add` impl). -/
def Hex.const_add (self other : Hex) : Hex := ⟨self.x + other.x, self.y + other.y⟩

/-- `Hex::const_sub`: componentwise subtraction (also the `Sub` impl). -/
def Hex.const_sub (self rhs : Hex) : Hex := ⟨self.x - rhs.x, self.y - rhs.y⟩

/-- `Hex::abs`: componentwise absolute value. -/
def Hex.abs (self : Hex) : Hex := ⟨|self.x|, |self.y|⟩

/-- `Hex::length`: `max(|x|, |y|, |z|)` computed by the source's
`if x >= y && x >= z { x } else if y >= x && y >= z { y } else { z }` chain. -/
def Hex.length (self : Hex) : Int :=
  let x := |self.x|
  let y := |self.y|
  let z := |self.z|
  if x ≥ y ∧ x ≥ z then x else if y ≥ x ∧ y ≥ z then y else z

/-- `Hex::ulength`: the same branch structure over `unsigned_abs` (`natAbs`). -/
def Hex.ulength (self : Hex) : Nat :=
  let x := self.x.natAbs
  let y := self.y.natAbs
  let z := self.z.natAbs
  if x ≥ y ∧ x ≥ z then x else if y ≥ x ∧ y ≥ z then y else z

/-- `Hex::distance_to`: `self.const_sub(rhs).length()`. -/
def Hex.distance_to (self rhs : Hex) : Int := (self.const_sub rhs).length

/-- `Hex::unsigned_distance_to`: `self.const_sub(rhs).ulength()`. -/
def Hex.unsigned_distance_to (self rhs : Hex) : Nat := (self.const_sub rhs).ulength

/-- Modelled from the spec: `Direction` lives in a module not present under
`src/`; the spec (§3) describes it as an opaque ordered enumeration of 6
variants with `as usize` giving the ordinal.  Modelled as `Fin 6`. -/
abbrev Direction : Type := Fin 6

/-- Modelled from the spec: `Direction::iter()` iterates the 6 variants in
ordinal order. -/
def Direction.iterList : List Direction := [0, 1, 2, 3, 4, 5]

/-- `Hex::NEIGHBORS_COORDS`, in `Direction` order. -/
def Hex.NEIGHBORS_COORDS : List Hex :=
  [⟨1, -1⟩, ⟨0, -1⟩, ⟨-1, 0⟩, ⟨-1, 1⟩, ⟨0, 1⟩, ⟨1, 0⟩]

/-- `Hex::neighbor_coord`: `NEIGHBORS_COORDS[direction as usize]`. -/
def Hex.neighbor_coord (direction : Direction) : Hex :=
  Hex.NEIGHBORS_COORDS.get ⟨direction.val, by
    have := direction.isLt
    simp only [Hex.NEIGHBORS_COORDS, List.length]
    omega⟩

/-- `Hex::neighbor`: `self.const_add(Self::neighbor_coord(direction))`. -/
def Hex.neighbor (self : Hex) (direction : Direction) : Hex :=
  self.const_add (Hex.neighbor_coord direction)

/-- `Hex::neighbor_direction`: `Direction::iter().find(|&dir| self.neighbor(dir) == other)`. -/
def Hex.neighbor_direction (self other : Hex) : Option Direction :=
  Direction.iterList.find? (fun dir => self.neighbor dir == other)

/-- `Hex::left`: rotation around the origin by -60 degrees, `(-z, -x)`. -/
def Hex.left (self : Hex) : Hex := ⟨-self.z, -self.x⟩

/-- `Hex::right`: rotation around the origin by 60 degrees, `(-y, -z)`. -/
def Hex.right (self : Hex) : Hex := ⟨-self.y, -self.z⟩

/-- `Hex::rotate_left`: dispatch on `m % 6` (`m` is a `u32`, modelled as `Nat`). -/
def Hex.rotate_left (self : Hex) (m : Nat) : Hex :=
  match m % 6 with
  | 1 => self.left
  | 2 => self.left.left
  | 3 => self.const_neg
  | 4 => self.right.right
  | 5 => self.right
  | _ => self

/-- `Hex::rotate_right`: dispatch on `m % 6`. -/
def Hex.rotate_right (self : Hex) (m : Nat) : Hex :=
  match m % 6 with
  | 1 => self.right
  | 2 => self.right.right
  | 3 => self.const_neg
  | 4 => self.left.left
  | 5 => self.left
  | _ => self

/-- Model of an `f32` value: either NaN, or an exact rational.  IEEE-754
rounding error is idealised away (finite arithmetic is exact), but the NaN
special cases that the source can reach (`0.0 / 0.0`, and NaN propagation
through `+`, `-`, `*` and failed comparisons) are modelled faithfully.  The
theorems below invoke this model only on computations whose every `f32`
intermediate is exactly representable (or NaN), where it is bit-faithful. -/
inductive F where
  | nan : F
  | val : ℚ → F
deriving DecidableEq, Repr

/-- `f32` addition; NaN propagates. -/
def F.add : F → F → F
  | .val a, .val b => .val (a + b)
  | _, _ => .nan

/-- `f32` subtraction; NaN propagates. -/
def F.sub : F → F → F
  | .val a, .val b => .val (a - b)
  | _, _ => .nan

/-- `f32` multiplication; NaN propagates (including `0.0 * NaN = NaN`). -/
def F.mul : F → F → F
  | .val a, .val b => .val (a * b)
  | _, _ => .nan

/-- `f32` division.  A zero divisor yields NaN: the only zero-divisor case the
source can reach is `0.0 / 0.0`, which is NaN in IEEE-754. -/
def F.div : F → F → F
  | .val a, .val b => if b = 0 then .nan else .val (a / b)
  | _, _ => .nan

/-- `f32` comparison `>=`; any comparison with NaN is false. -/
def F.fge : F → F → Bool
  | .val a, .val b => decide (a ≥ b)
  | _, _ => false

/-- `f32` comparison `<`; any comparison with NaN is false. -/
def F.flt : F → F → Bool
  | .val a, .val b => decide (a < b)
  | _, _ => false

/-- `f32::round`: round half away from zero; NaN propagates. -/
def F.fround : F → F
  | .nan => .nan
  | .val q => .val (((if 0 ≤ q then ⌊q + 1 / 2⌋ else ⌈q - 1 / 2⌉ : Int) : ℚ))

/-- Rust's `as i32` cast on `f32`: NaN goes to 0, otherwise truncate toward
zero and saturate at the `i32` bounds. -/
def F.toI32 : F → Int
  | .nan => 0
  | .val q => max (-(2 ^ 31)) (min (2 ^ 31 - 1) (if 0 ≤ q then ⌊q⌋ else ⌈q⌉))

/-- `Hex::as_vec2`: the two axial coordinates as floats.  The real
`i32 as f32` conversion rounds to nearest beyond `2^24` (e.g. `16777217`
becomes `16777216.0`); this model keeps it exact, so theorems about it are
stated only for coordinates in the exactly-representable range. -/
def Hex.as_vec2 (self : Hex) : F × F := (F.val self.x, F.val self.y)

/-- glam's `Vec2::lerp`: `self + ((rhs - self) * s)`, componentwise. -/
def vec2Lerp (self rhs : F × F) (s : F) : F × F :=
  (self.1.add ((rhs.1.sub self.1).mul s), self.2.add ((rhs.2.sub self.2).mul s))

/-- `Hex::round`: round float coordinates to a `Hex`, correcting the axis with
the larger rounding remainder from the other one (source lines 332-343). -/
def Hex.round (p : F × F) : Hex :=
  let x0 := p.1
  let y0 := p.2
  let x_r0 := x0.fround
  let y_r0 := y0.fround
  let x := x0.sub x0.fround
  let y := y0.sub y0.fround
  let x_r := if (x.mul x).fge (y.mul y)
    then x_r0.add (((F.val (1 / 2)).mul y).add x).fround else x_r0
  let y_r := if (x.mul x).flt (y.mul y)
    then y_r0.add (((F.val (1 / 2)).mul x).add y).fround else y_r0
  Hex.new x_r.toI32 y_r.toI32

/-- Modelled from the spec: the `Vec2 -> Hex` conversion used by `line_to`'s
`.into()` lives in a module not present under `src/`; the spec (§4.4) says each
interpolated point is rounded "to the nearest valid Hex using the rounding
rule below", i.e. `Hex::round`. -/
def Hex.fromVec2 (p : F × F) : Hex := Hex.round p

/-- `Hex::line_to`: `(0..=distance).map(|step| a.lerp(b, step as f32 / distance as f32).into())`. -/
def Hex.line_to (self other : Hex) : List Hex :=
  let distance := self.distance_to other
  let a := self.as_vec2
  let b := other.as_vec2
  (List.range (distance.toNat + 1)).map (fun step : Nat =>
    Hex.fromVec2 (vec2Lerp a b ((F.val (step : Rat)).div (F.val (distance : Rat)))))

/-- Rust's inclusive range `a..=b` over integers, ascending; empty when `a > b`. -/
def intRangeInc (a b : Int) : List Int :=
  (List.range (b - a + 1).toNat).map (fun i : Nat => a + (i : Int))

/-- Two's-complement wrap of an integer into the `i32` range `[-2^31, 2^31)`,
the release-mode semantics of Rust's wrapping `i32` arithmetic. -/
def wrap32 (v : Int) : Int := (v + 2 ^ 31) % 2 ^ 32 - 2 ^ 31

/-- Rust's `as i32` cast on a `u32` value: reinterpret the bits, i.e. wrap
into `[-2^31, 2^31)`. -/
def u32_as_i32 (v : Nat) : Int := wrap32 v

/-- `Hex::range`: `let range = range as i32;` then for `x` in `-range..=range`,
`y` in `max(-range, -x-range)..=min(range, range-x)`, yield
`self + Hex::new(x, y)`.  The `u32 -> i32` cast and the `i32` arithmetic on
the bounds wrap (each arithmetic expression is wrapped once, which agrees with
wrapping every intermediate operation). -/
def Hex.range (self : Hex) (range : Nat) : List Hex :=
  let r : Int := u32_as_i32 range
  (intRangeInc (wrap32 (-r)) r).flatMap (fun x =>
    (intRangeInc (max (wrap32 (-r)) (wrap32 (-x - r))) (min r (wrap32 (r - x)))).map (fun y =>
      self.const_add ⟨x, y⟩))

/-- `Hex::range_count`: `(3 * range * (range + 1) + 1) as usize`, computed in
`u32` arithmetic, which wraps modulo `2^32` (release-mode semantics). -/
def Hex.range_count (range : Nat) : Nat := (3 * range * (range + 1) + 1) % 2 ^ 32

/-- `Hex::wraparound_mirrors`: the 6 mirror centers for a wraparound map of
the given `radius`. -/
def Hex.wraparound_mirrors (radius : Nat) : List Hex :=
  let r : Int := radius
  let mirror : Hex := Hex.new (2 * r + 1) (-r)
  let center := mirror
  let l := mirror.left
  let rt := mirror.right
  [l, center, rt, l.const_neg, center.const_neg, rt.const_neg]

/-- An element of the list achieving the minimal key, as selected by
`sorted_unstable_by_key(...).next()` (for equal keys Rust's unstable sort
leaves the choice unspecified; this model keeps the leftmost minimum). -/
def Hex.minByKey (key : Hex → Int) : List Hex → Option Hex
  | [] => none
  | m :: rest =>
    match Hex.minByKey key rest with
    | none => some m
    | some b => some (if key m ≤ key b then m else b)

/-- The `while res.ulength() > radius` loop of `Hex::wrap_with`, with explicit
fuel; `none` means the fuel was exhausted (the Rust loop would still be
running after that many iterations). -/
def Hex.wrapLoop (radius : Nat) (mirrors : List Hex) : Nat → Hex → Option Hex
  | 0, res => if res.ulength ≤ radius then some res else none
  | fuel + 1, res =>
    if res.ulength ≤ radius then some res
    else
      match Hex.minByKey (fun m => res.distance_to m) mirrors with
      | none => none
      | some mirror => Hex.wrapLoop radius mirrors fuel (res.const_sub mirror)

/-- `Hex::wrap_with`: early return when already within `radius`, otherwise the
nearest-mirror subtraction loop, given `ulength` iterations of fuel. -/
def Hex.wrap_with (self : Hex) (radius : Nat) (mirrors : List Hex) : Option Hex :=
  if self.ulength ≤ radius then some self
  else Hex.wrapLoop radius mirrors self.ulength self

/-- `Hex::wrap_in_range`: `wrap_with` using the canonical mirror set. -/
def Hex.wrap_in_range (self : Hex) (radius : Nat) : Option Hex :=
  self.wrap_with radius (Hex.wraparound_mirrors radius)

/-- The three-way maximum `max(|x|, |y|, |z|)` that `length` is specified to
compute. -/
def Hex.maxAbs (self : Hex) : Int := max (max |self.x| |self.y|) |self.z|

theorem Hex.length_eq_maxAbs (h : Hex) : h.length = h.maxAbs := by
  simp only [Hex.length, Hex.maxAbs, Hex.z]
  split
  · omega
  · split <;> omega

theorem Hex.ulength_eq_length (h : Hex) : (h.ulength : Int) = h.length := by
  simp only [Hex.ulength, Hex.length, Hex.z]
  have hx := Int.abs_eq_natAbs h.x
  have hy := Int.abs_eq_natAbs h.y
  have hz := Int.abs_eq_natAbs (-h.x - h.y)
  split
  · rename_i hc
    split
    · omega
    · omega
  · rename_i hc
    split
    · split <;> omega
    · split
      · omega
      · split <;> omega


lemma Hex.rotate_left_mod (h : Hex) (m : Nat) : h.rotate_left m = h.rotate_left (m % 6) := by
  unfold Hex.rotate_left
  have he : m % 6 % 6 = m % 6 := by omega
  rw [he]

lemma Hex.rotate_right_mod (h : Hex) (m : Nat) : h.rotate_right m = h.rotate_right (m % 6) := by
  unfold Hex.rotate_right
  have he : m % 6 % 6 = m % 6 := by omega
  rw [he]

/-- Claim C3: apart from `new_cubic` and `neighbor_direction`, the operations
are total: rotation indices are reduced modulo 6, and `length` (hence
`distance_to = length of the difference`) is defined for every coordinate
pair, its branch chain computing `max(|x|, |y|, |z|)`, with the unsigned
variant agreeing with it. -/
theorem claimC3 :
    (∀ (h : Hex) (m : Nat), h.rotate_left m = h.rotate_left (m % 6)) ∧
    (∀ (h : Hex) (m : Nat), h.rotate_right m = h.rotate_right (m % 6)) ∧
    (∀ h : Hex, h.length = max (max |h.x| |h.y|) |h.z|) ∧
    (∀ h : Hex, (h.ulength : Int) = h.length) :=
  ⟨Hex.rotate_left_mod, Hex.rotate_right_mod,
    fun h => Hex.length_eq_maxAbs h, Hex.ulength_eq_length⟩

/-- Claim C5: `new_cubic(x, y, z)` succeeds exactly when `x + y + z = 0`, and
then the result satisfies `.z() = z`; otherwise construction aborts (modelled
as `none`, never an invalid `Hex`). -/
theorem claimC5 : ∀ x y zc : Int,
    ((Hex.new_cubic x y zc).isSome ↔ x + y + zc = 0) ∧
    (∀ h', Hex.new_cubic x y zc = some h' → h'.z = zc) := by
  intro x y zc
  constructor
  · unfold Hex.new_cubic
    split <;> simp_all
  · intro h' hh
    unfold Hex.new_cubic at hh
    split at hh
    · cases hh
      simp only [Hex.z]
      omega
    · cases hh

/-- Claim C5 witness at `(3, 5, -8)`. -/
theorem claimC5_witness :
    (Hex.new_cubic 3 5 (-8)).isSome ∧ (Hex.new 3 5).z = -8 :=
  ⟨((claimC5 3 5 (-8)).1).mpr (by decide),
    (claimC5 3 5 (-8)).2 (Hex.new 3 5) (by decide)⟩

/-- Claim C6: `rotate_left(6)` and `rotate_right(6)` are the identity, and
`rotate_left(m) = rotate_right((6 - m) mod 6)` with the mathematical
(Euclidean) modulus. -/
theorem claimC6 :
    (∀ h : Hex, h.rotate_left 6 = h) ∧
    (∀ h : Hex, h.rotate_right 6 = h) ∧
    (∀ (h : Hex) (m : Nat),
      h.rotate_left m = h.rotate_right ((6 - (m : Int)) % 6).toNat) := by
  refine ⟨fun h => rfl, fun h => rfl, fun h m => ?_⟩
  rw [Hex.rotate_left_mod, Hex.rotate_right_mod]
  have hk : m % 6 < 6 := Nat.mod_lt _ (by norm_num)
  have he : ((6 - (m : Int)) % 6).toNat % 6 = (6 - m % 6) % 6 := by omega
  rw [he]
  generalize m % 6 = k at hk
  interval_cases k <;> rfl

/-- Claim C8: `distance_to` is symmetric and vanishes on the diagonal. -/
theorem claimC8 :
    (∀ a b : Hex, a.distance_to b = b.distance_to a) ∧
    (∀ a : Hex, a.distance_to a = 0) := by
  constructor
  · intro a b
    simp only [Hex.distance_to, Hex.length_eq_maxAbs, Hex.maxAbs, Hex.const_sub, Hex.z]
    have e1 : |a.x - b.x| = |b.x - a.x| := abs_sub_comm _ _
    have e2 : |a.y - b.y| = |b.y - a.y| := abs_sub_comm _ _
    have e3 : |-(a.x - b.x) - (a.y - b.y)| = |-(b.x - a.x) - (b.y - a.y)| := by
      rw [show -(a.x - b.x) - (a.y - b.y) = -(-(b.x - a.x) - (b.y - a.y)) by ring, abs_neg]
    rw [e1, e2, e3]
  · intro a
    simp [Hex.distance_to, Hex.length_eq_maxAbs, Hex.maxAbs, Hex.const_sub, Hex.z]

/-- Claim C10: a coordinate already within the radius is returned unchanged by
`wrap_with`, whatever the 6 mirrors are. -/
theorem claimC10 : ∀ (h : Hex) (radius : Nat) (mirrors : List Hex),
    mirrors.length = 6 → h.ulength ≤ radius → h.wrap_with radius mirrors = some h := by
  intro h radius mirrors _ hle
  unfold Hex.wrap_with
  simp [hle]

/-- Claim C10 witness: `Hex::new(1, 0)` is inside radius 2 and is returned
unchanged (using the 6 neighbor offsets as a mirror array). -/
theorem claimC10_witness :
    Hex.NEIGHBORS_COORDS.length = 6 ∧ (Hex.new 1 0).ulength ≤ 2 ∧
    (Hex.new 1 0).wrap_with 2 Hex.NEIGHBORS_COORDS = some (Hex.new 1 0) :=
  ⟨by decide, by decide, claimC10 _ _ _ (by decide) (by decide)⟩

lemma Hex.neighbor_direction_shift (h o : Hex) :
    h.neighbor_direction o = Hex.neighbor_direction ⟨0, 0⟩ (o.const_sub h) := by
  unfold Hex.neighbor_direction
  congr 1
  funext d
  show decide (h.neighbor d = o) = decide (Hex.neighbor ⟨0, 0⟩ d = o.const_sub h)
  rw [decide_eq_decide]
  obtain ⟨hx, hy⟩ := h
  obtain ⟨ox, oy⟩ := o
  simp only [Hex.neighbor, Hex.const_add, Hex.const_sub, Hex.mk.injEq]
  omega

/-- Claim C7: `neighbor_direction` inverts `neighbor` for every direction, and
returns `none` exactly on non-neighbors. -/
theorem claimC7 :
    (∀ (h : Hex) (d : Direction), h.neighbor_direction (h.neighbor d) = some d) ∧
    (∀ h o : Hex, (∀ d : Direction, h.neighbor d ≠ o) → h.neighbor_direction o = none) := by
  constructor
  · intro h d
    rw [Hex.neighbor_direction_shift]
    have he : (h.neighbor d).const_sub h = Hex.neighbor_coord d := by
      obtain ⟨hx, hy⟩ := h
      rcases hcd : Hex.neighbor_coord d with ⟨cx, cy⟩
      simp only [Hex.neighbor, Hex.const_add, Hex.const_sub, hcd, Hex.mk.injEq]
      omega
    rw [he]
    clear he
    revert d
    decide
  · intro h o hno
    rw [Hex.neighbor_direction_shift]
    unfold Hex.neighbor_direction
    rw [List.find?_eq_none]
    intro d _
    simp only [beq_iff_eq]
    intro heq
    apply hno d
    obtain ⟨hx, hy⟩ := h
    obtain ⟨ox, oy⟩ := o
    simp only [Hex.neighbor, Hex.const_add, Hex.const_sub, Hex.mk.injEq] at heq ⊢
    omega

/-- Claim C7 witness: `(5, 5)` is not adjacent to the origin and
`neighbor_direction` answers `none` there. -/
theorem claimC7_witness :
    (∀ d : Direction, Hex.neighbor ⟨0, 0⟩ d ≠ ⟨5, 5⟩) ∧
    Hex.neighbor_direction ⟨0, 0⟩ ⟨5, 5⟩ = none :=
  ⟨by decide, claimC7.2 _ _ (by decide)⟩

lemma Hex.length_mk (x y : Int) :
    Hex.length ⟨x, y⟩ = max (max |x| |y|) |-x - y| := by
  rw [Hex.length_eq_maxAbs]
  rfl

lemma Hex.distance_mk (x y a b : Int) :
    Hex.distance_to ⟨x, y⟩ ⟨a, b⟩ = max (max |x - a| |y - b|) |-(x - a) - (y - b)| := by
  simp only [Hex.distance_to, Hex.const_sub]
  exact Hex.length_mk _ _

lemma mdec1 (x y R : Int) (hR : 0 ≤ R) (h1 : y ≤ x) (h2 : -x - y ≤ y) (hs : y ≤ 0)
    (hu : R < max (max |x| |y|) |-x - y|) :
    max (max |x - (2*R+1)| |y - -R|) |-(x - (2*R+1)) - (y - -R)| < max (max |x| |y|) |-x - y| := by
  simp only [Int.abs_eq_natAbs] at hu ⊢
  omega

lemma mdec2 (x y R : Int) (hR : 0 ≤ R) (h1 : y ≤ x) (h2 : -x - y ≤ y) (hs : 1 ≤ y)
    (hu : R < max (max |x| |y|) |-x - y|) :
    max (max |x - R| |y - (R+1)|) |-(x - R) - (y - (R+1))| < max (max |x| |y|) |-x - y| := by
  simp only [Int.abs_eq_natAbs] at hu ⊢
  omega

lemma mdec3 (x y R : Int) (hR : 0 ≤ R) (h1 : -x - y ≤ x) (h2 : y ≤ -x - y) (hs : -x - y ≤ -1)
    (hu : R < max (max |x| |y|) |-x - y|) :
    max (max |x - (2*R+1)| |y - -R|) |-(x - (2*R+1)) - (y - -R)| < max (max |x| |y|) |-x - y| := by
  simp only [Int.abs_eq_natAbs] at hu ⊢
  omega

lemma mdec4 (x y R : Int) (hR : 0 ≤ R) (h1 : -x - y ≤ x) (h2 : y ≤ -x - y) (hs : 0 ≤ -x - y)
    (hu : R < max (max |x| |y|) |-x - y|) :
    max (max |x - (R+1)| |y - -(2*R+1)|) |-(x - (R+1)) - (y - -(2*R+1))| < max (max |x| |y|) |-x - y| := by
  simp only [Int.abs_eq_natAbs] at hu ⊢
  omega

lemma mdec5 (x y R : Int) (hR : 0 ≤ R) (h1 : x ≤ y) (h2 : -x - y ≤ x) (hs : x ≤ -1)
    (hu : R < max (max |x| |y|) |-x - y|) :
    max (max |x - -(R+1)| |y - (2*R+1)|) |-(x - -(R+1)) - (y - (2*R+1))| < max (max |x| |y|) |-x - y| := by
  simp only [Int.abs_eq_natAbs] at hu ⊢
  omega

lemma mdec6 (x y R : Int) (hR : 0 ≤ R) (h1 : x ≤ y) (h2 : -x - y ≤ x) (hs : 0 ≤ x)
    (hu : R < max (max |x| |y|) |-x - y|) :
    max (max |x - R| |y - (R+1)|) |-(x - R) - (y - (R+1))| < max (max |x| |y|) |-x - y| := by
  simp only [Int.abs_eq_natAbs] at hu ⊢
  omega

lemma mdec7 (x y R : Int) (hR : 0 ≤ R) (h1 : -x - y ≤ y) (h2 : x ≤ -x - y) (hs : -x - y ≤ 0)
    (hu : R < max (max |x| |y|) |-x - y|) :
    max (max |x - -(R+1)| |y - (2*R+1)|) |-(x - -(R+1)) - (y - (2*R+1))| < max (max |x| |y|) |-x - y| := by
  simp only [Int.abs_eq_natAbs] at hu ⊢
  omega

lemma mdec8 (x y R : Int) (hR : 0 ≤ R) (h1 : -x - y ≤ y) (h2 : x ≤ -x - y) (hs : 1 ≤ -x - y)
    (hu : R < max (max |x| |y|) |-x - y|) :
    max (max |x - -(2*R+1)| |y - R|) |-(x - -(2*R+1)) - (y - R)| < max (max |x| |y|) |-x - y| := by
  simp only [Int.abs_eq_natAbs] at hu ⊢
  omega

lemma mdec9 (x y R : Int) (hR : 0 ≤ R) (h1 : x ≤ -x - y) (h2 : y ≤ x) (hs : x ≤ 0)
    (hu : R < max (max |x| |y|) |-x - y|) :
    max (max |x - -R| |y - -(R+1)|) |-(x - -R) - (y - -(R+1))| < max (max |x| |y|) |-x - y| := by
  simp only [Int.abs_eq_natAbs] at hu ⊢
  omega

lemma mdec10 (x y R : Int) (hR : 0 ≤ R) (h1 : x ≤ -x - y) (h2 : y ≤ x) (hs : 1 ≤ x)
    (hu : R < max (max |x| |y|) |-x - y|) :
    max (max |x - (R+1)| |y - -(2*R+1)|) |-(x - (R+1)) - (y - -(2*R+1))| < max (max |x| |y|) |-x - y| := by
  simp only [Int.abs_eq_natAbs] at hu ⊢
  omega

lemma mdec11 (x y R : Int) (hR : 0 ≤ R) (h1 : y ≤ -x - y) (h2 : x ≤ y) (hs : y ≤ -1)
    (hu : R < max (max |x| |y|) |-x - y|) :
    max (max |x - -R| |y - -(R+1)|) |-(x - -R) - (y - -(R+1))| < max (max |x| |y|) |-x - y| := by
  simp only [Int.abs_eq_natAbs] at hu ⊢
  omega

lemma mdec12 (x y R : Int) (hR : 0 ≤ R) (h1 : y ≤ -x - y) (h2 : x ≤ y) (hs : 0 ≤ y)
    (hu : R < max (max |x| |y|) |-x - y|) :
    max (max |x - -(2*R+1)| |y - R|) |-(x - -(2*R+1)) - (y - R)| < max (max |x| |y|) |-x - y| := by
  simp only [Int.abs_eq_natAbs] at hu ⊢
  omega

/-- Outside the wrap radius, one of the six mirrors is strictly closer than
the origin (the key decrease fact behind `wrap_with` termination). -/
lemma mirror_decrease_arith (x y R : Int) (hR : 0 ≤ R)
    (hu : R < max (max |x| |y|) |-x - y|) :
    max (max |x - (R+1)| |y - -(2*R+1)|) |-(x - (R+1)) - (y - -(2*R+1))| < max (max |x| |y|) |-x - y| ∨
    max (max |x - (2*R+1)| |y - -R|) |-(x - (2*R+1)) - (y - -R)| < max (max |x| |y|) |-x - y| ∨
    max (max |x - R| |y - (R+1)|) |-(x - R) - (y - (R+1))| < max (max |x| |y|) |-x - y| ∨
    max (max |x - -(R+1)| |y - (2*R+1)|) |-(x - -(R+1)) - (y - (2*R+1))| < max (max |x| |y|) |-x - y| ∨
    max (max |x - -(2*R+1)| |y - R|) |-(x - -(2*R+1)) - (y - R)| < max (max |x| |y|) |-x - y| ∨
    max (max |x - -R| |y - -(R+1)|) |-(x - -R) - (y - -(R+1))| < max (max |x| |y|) |-x - y| := by
  rcases le_total x y with hxy | hxy
  · rcases le_total y (-x - y) with hyz | hyz
    · by_cases hs : 0 ≤ y
      · have hD := mdec12 x y R hR hyz hxy hs hu
        exact Or.inr (Or.inr (Or.inr (Or.inr (Or.inl hD))))
      · have hD := mdec11 x y R hR hyz hxy (by omega) hu
        exact Or.inr (Or.inr (Or.inr (Or.inr (Or.inr hD))))
    · rcases le_total x (-x - y) with hxz | hxz
      · by_cases hs : -x - y ≤ 0
        · have hD := mdec7 x y R hR hyz hxz hs hu
          exact Or.inr (Or.inr (Or.inr (Or.inl hD)))
        · have hD := mdec8 x y R hR hyz hxz (by omega) hu
          exact Or.inr (Or.inr (Or.inr (Or.inr (Or.inl hD))))
      · by_cases hs : 0 ≤ x
        · have hD := mdec6 x y R hR hxy hxz hs hu
          exact Or.inr (Or.inr (Or.inl hD))
        · have hD := mdec5 x y R hR hxy hxz (by omega) hu
          exact Or.inr (Or.inr (Or.inr (Or.inl hD)))
  · rcases le_total y (-x - y) with hyz | hyz
    · rcases le_total x (-x - y) with hxz | hxz
      · by_cases hs : x ≤ 0
        · have hD := mdec9 x y R hR hxz hxy hs hu
          exact Or.inr (Or.inr (Or.inr (Or.inr (Or.inr hD))))
        · have hD := mdec10 x y R hR hxz hxy (by omega) hu
          exact Or.inl hD
      · by_cases hs : 0 ≤ -x - y
        · have hD := mdec4 x y R hR hxz hyz hs hu
          exact Or.inl hD
        · have hD := mdec3 x y R hR hxz hyz (by omega) hu
          exact Or.inr (Or.inl hD)
    · by_cases hs : y ≤ 0
      · have hD := mdec1 x y R hR hxy hyz hs hu
        exact Or.inr (Or.inl hD)
      · have hD := mdec2 x y R hR hxy hyz (by omega) hu
        exact Or.inr (Or.inr (Or.inl hD))

lemma wraparound_mirrors_eq (radius : Nat) :
    Hex.wraparound_mirrors radius =
      [⟨(radius : Int) + 1, -(2 * radius + 1)⟩, ⟨2 * (radius : Int) + 1, -(radius : Int)⟩,
       ⟨(radius : Int), (radius : Int) + 1⟩, ⟨-((radius : Int) + 1), 2 * (radius : Int) + 1⟩,
       ⟨-(2 * (radius : Int) + 1), (radius : Int)⟩, ⟨-(radius : Int), -((radius : Int) + 1)⟩] := by
  simp only [Hex.wraparound_mirrors, Hex.new, Hex.left, Hex.right, Hex.const_neg, Hex.z,
    List.cons.injEq, Hex.mk.injEq, and_true, true_and]
  omega

/-- Every coordinate strictly outside the radius is strictly closer to one of
the six wraparound mirrors than its own length. -/
lemma Hex.mirror_decrease (h : Hex) (r : Nat) (hgt : (r : Int) < h.length) :
    ∃ m ∈ Hex.wraparound_mirrors r, h.distance_to m < h.length := by
  obtain ⟨x, y⟩ := h
  rw [Hex.length_mk] at hgt
  have harith := mirror_decrease_arith x y r (Int.natCast_nonneg r) hgt
  rw [wraparound_mirrors_eq]
  rcases harith with hD | hD | hD | hD | hD | hD
  · exact ⟨⟨(r : Int) + 1, -(2 * r + 1)⟩, by simp, by rw [Hex.distance_mk, Hex.length_mk]; exact hD⟩
  · exact ⟨⟨2 * (r : Int) + 1, -(r : Int)⟩, by simp, by rw [Hex.distance_mk, Hex.length_mk]; exact hD⟩
  · exact ⟨⟨(r : Int), (r : Int) + 1⟩, by simp, by rw [Hex.distance_mk, Hex.length_mk]; exact hD⟩
  · exact ⟨⟨-((r : Int) + 1), 2 * (r : Int) + 1⟩, by simp, by rw [Hex.distance_mk, Hex.length_mk]; exact hD⟩
  · exact ⟨⟨-(2 * (r : Int) + 1), (r : Int)⟩, by simp, by rw [Hex.distance_mk, Hex.length_mk]; exact hD⟩
  · exact ⟨⟨-(r : Int), -((r : Int) + 1)⟩, by simp, by rw [Hex.distance_mk, Hex.length_mk]; exact hD⟩

lemma Hex.minByKey_spec (key : Hex → Int) (l : List Hex) (hne : l ≠ []) :
    ∃ b, Hex.minByKey key l = some b ∧ b ∈ l ∧ ∀ m ∈ l, key b ≤ key m := by
  induction l with
  | nil => exact absurd rfl hne
  | cons a t ih =>
    by_cases ht : t = []
    · subst ht
      exact ⟨a, rfl, List.mem_singleton.mpr rfl, by
        intro m hm
        rw [List.mem_singleton.mp hm]⟩
    · obtain ⟨b, hb1, hb2, hb3⟩ := ih ht
      refine ⟨if key a ≤ key b then a else b, ?_, ?_, ?_⟩
      · simp only [Hex.minByKey, hb1]
      · split
        · exact List.mem_cons_self a t
        · exact List.mem_cons_of_mem a hb2
      · intro m hm
        rcases List.mem_cons.mp hm with h1 | h2
        · subst h1
          split <;> omega
        · have := hb3 m h2
          split <;> omega

lemma Hex.wrapLoop_spec (radius : Nat) :
    ∀ (fuel : Nat) (h : Hex), h.ulength ≤ fuel + radius →
    ∃ res, Hex.wrapLoop radius (Hex.wraparound_mirrors radius) fuel h = some res ∧
      res.ulength ≤ radius := by
  intro fuel
  induction fuel with
  | zero =>
    intro h hle
    exact ⟨h, by simp [Hex.wrapLoop, show h.ulength ≤ radius by omega], by omega⟩
  | succ fuel ih =>
    intro h hle
    by_cases hc : h.ulength ≤ radius
    · exact ⟨h, by simp [Hex.wrapLoop, hc], hc⟩
    · have hne : Hex.wraparound_mirrors radius ≠ [] := by
        rw [wraparound_mirrors_eq]
        simp
      obtain ⟨b, hb1, hb2, hb3⟩ := Hex.minByKey_spec (fun m => h.distance_to m) _ hne
      have hgt : (radius : Int) < h.length := by
        have he := Hex.ulength_eq_length h
        omega
      obtain ⟨m, hm, hmlt⟩ := Hex.mirror_decrease h radius hgt
      have hlt : h.distance_to b < h.length := lt_of_le_of_lt (hb3 m hm) hmlt
      have hu : (h.const_sub b).ulength < h.ulength := by
        have e1 := Hex.ulength_eq_length (h.const_sub b)
        have e2 := Hex.ulength_eq_length h
        have e3 : h.distance_to b = (h.const_sub b).length := rfl
        omega
      obtain ⟨res, hres1, hres2⟩ := ih (h.const_sub b) (by omega)
      refine ⟨res, ?_, hres2⟩
      simp only [Hex.wrapLoop, if_neg hc, hb1]
      exact hres1

/-- Claim C2: `wrap_in_range` terminates (within `ulength(h)` loop iterations)
and the result is within the radius. -/
theorem claimC2 : ∀ (h : Hex) (radius : Nat),
    ∃ res, h.wrap_in_range radius = some res ∧ res.ulength ≤ radius := by
  intro h radius
  unfold Hex.wrap_in_range Hex.wrap_with
  by_cases hc : h.ulength ≤ radius
  · exact ⟨h, by simp [hc], hc⟩
  · rw [if_neg hc]
    exact Hex.wrapLoop_spec radius h.ulength h (by omega)

lemma F.add_val (a b : Rat) : F.add (F.val a) (F.val b) = F.val (a + b) := rfl

lemma F.sub_val (a b : Rat) : F.sub (F.val a) (F.val b) = F.val (a - b) := rfl

lemma F.mul_val (a b : Rat) : F.mul (F.val a) (F.val b) = F.val (a * b) := rfl

lemma F.fround_intCast (k : Int) : F.fround (F.val (k : Rat)) = F.val (k : Rat) := by
  unfold F.fround
  simp only [F.val.injEq]
  split
  · rw [add_comm, Int.floor_add_int]
    norm_num
  · rw [sub_eq_add_neg, add_comm, Int.ceil_add_int]
    norm_num

lemma F.toI32_val (q : Rat) :
    F.toI32 (F.val q) = max (-(2 ^ 31)) (min (2 ^ 31 - 1) (if 0 ≤ q then ⌊q⌋ else ⌈q⌉)) := rfl

lemma F.toI32_intCast (k : Int) (h1 : -(2 ^ 31) ≤ k) (h2 : k ≤ 2 ^ 31 - 1) :
    F.toI32 (F.val (k : Rat)) = k := by
  rw [F.toI32_val]
  have he : (if (0 : Rat) ≤ (k : Rat) then ⌊(k : Rat)⌋ else ⌈(k : Rat)⌉) = k := by
    split
    · exact Int.floor_intCast k
    · exact Int.ceil_intCast k
  rw [he]
  omega

lemma Hex.round_intCast (n m : Int) (hn1 : -(2 ^ 31) ≤ n) (hn2 : n ≤ 2 ^ 31 - 1)
    (hm1 : -(2 ^ 31) ≤ m) (hm2 : m ≤ 2 ^ 31 - 1) :
    Hex.round (F.val (n : Rat), F.val (m : Rat)) = ⟨n, m⟩ := by
  simp only [Hex.round]
  simp only [F.fround_intCast, F.sub_val, sub_self, F.mul_val, mul_zero, zero_mul]
  have h0 : F.fround (F.val 0) = F.val 0 := by
    have h00 := F.fround_intCast 0
    simpa using h00
  rw [if_pos (by decide : (F.val 0).fge (F.val 0) = true),
      if_neg (by decide : ¬ (F.val 0).flt (F.val 0) = true)]
  simp only [F.add_val, add_zero, h0]
  rw [F.toI32_intCast n hn1 hn2, F.toI32_intCast m hm1 hm2]
  rfl

lemma Hex.length_nonneg (h : Hex) : 0 ≤ h.length := by
  rw [Hex.length_eq_maxAbs]
  exact le_trans (abs_nonneg _) (le_max_right _ _)

lemma Hex.distance_to_eq_zero_iff (a b : Hex) : a.distance_to b = 0 ↔ a = b := by
  obtain ⟨ax, ay⟩ := a
  obtain ⟨bx, b2⟩ := b
  simp only [Hex.distance_to, Hex.const_sub, Hex.length_mk, Hex.mk.injEq,
    Int.abs_eq_natAbs]
  omega

/-- Coordinates within `±2^23`.  For two such hexes every `f32` value arising
in `line_to`'s endpoint computations (the coordinates, their differences of
magnitude at most `2^24`, the step fractions 0 and 1, and the interpolants at
the ends) is exactly representable, so the exact-rational float model is
bit-faithful there. -/
def Hex.f32exact (h : Hex) : Prop :=
  -(2 ^ 23) ≤ h.x ∧ h.x ≤ 2 ^ 23 ∧ -(2 ^ 23) ≤ h.y ∧ h.y ≤ 2 ^ 23

instance (h : Hex) : Decidable h.f32exact := by
  unfold Hex.f32exact
  infer_instance

/-- Claim C1 (the code at the failing input): `line_to(a, a)` at `a = (3, 5)`
evaluates to `[(0, 0)]`, not `[a]` — the step fraction is `0.0 / 0.0 = NaN`,
which propagates through the interpolation and is cast to 0. -/
theorem claimC1 : Hex.line_to (Hex.new 3 5) (Hex.new 3 5) = [Hex.new 0 0] := by decide

/-- Claim C9 counterexample: at `a = b = (3, 5)` the sequence is not `[a]`. -/
theorem claimC9_counterexample :
    Hex.line_to (Hex.new 3 5) (Hex.new 3 5) ≠ [Hex.new 3 5] := by decide

lemma F.div_val (a b : Rat) :
    F.div (F.val a) (F.val b) = if b = 0 then F.nan else F.val (a / b) := rfl

/-- One interpolated point of `line_to`, computed symbolically: when the
interpolant is the integer pair `(n, m)`, rounding yields `Hex::new(n, m)`. -/
lemma lerp_round_point (ax ay bx b2 : Int) (step : Nat) (dval n m : Int)
    (hn1 : -(2 ^ 31) ≤ n) (hn2 : n ≤ 2 ^ 31 - 1)
    (hm1 : -(2 ^ 31) ≤ m) (hm2 : m ≤ 2 ^ 31 - 1)
    (hdq : ((dval : Rat)) ≠ 0)
    (hx : (ax : Rat) + ((bx : Rat) - (ax : Rat)) * ((step : Rat) / (dval : Rat)) = (n : Rat))
    (hy : (ay : Rat) + ((b2 : Rat) - (ay : Rat)) * ((step : Rat) / (dval : Rat)) = (m : Rat)) :
    Hex.fromVec2 (vec2Lerp (Hex.new ax ay).as_vec2 (Hex.new bx b2).as_vec2
      ((F.val (step : Rat)).div (F.val (dval : Rat)))) = Hex.new n m := by
  rw [F.div_val, if_neg hdq]
  simp only [Hex.as_vec2, Hex.new, vec2Lerp, F.sub_val, F.mul_val, F.add_val, Hex.fromVec2]
  rw [hx, hy]
  exact Hex.round_intCast n m hn1 hn2 hm1 hm2

/-- Claim C9 (amended): the line always has `distance + 1` points; for `a ≠ b`
with coordinates within `±2^23` (so that every `f32` value in the endpoint
computations of the real program is exactly representable) it runs from `a`
to `b`; and the concrete `(0,0) -> (5,0)` example holds. -/
theorem claimC9 :
    (∀ a b : Hex, (a.line_to b).length = (a.distance_to b).toNat + 1) ∧
    (∀ a b : Hex, a.f32exact → b.f32exact → a ≠ b →
      (a.line_to b).head? = some a ∧ (a.line_to b).getLast? = some b) ∧
    Hex.line_to (Hex.new 0 0) (Hex.new 5 0) =
      [Hex.new 0 0, Hex.new 1 0, Hex.new 2 0, Hex.new 3 0, Hex.new 4 0, Hex.new 5 0] := by
  refine ⟨?_, ?_, ?_⟩
  · intro a b
    simp [Hex.line_to]
  · intro a b ha hb hab
    obtain ⟨he1, he2, he3, he4⟩ := ha
    obtain ⟨hf1, hf2, hf3, hf4⟩ := hb
    have ha1 : -(2 ^ 31) ≤ a.x := by omega
    have ha2 : a.x ≤ 2 ^ 31 - 1 := by omega
    have ha3 : -(2 ^ 31) ≤ a.y := by omega
    have ha4 : a.y ≤ 2 ^ 31 - 1 := by omega
    have hb1 : -(2 ^ 31) ≤ b.x := by omega
    have hb2 : b.x ≤ 2 ^ 31 - 1 := by omega
    have hb3 : -(2 ^ 31) ≤ b.y := by omega
    have hb4 : b.y ≤ 2 ^ 31 - 1 := by omega
    have hd0 : 0 ≤ a.distance_to b := Hex.length_nonneg _
    have hdne : a.distance_to b ≠ 0 := fun h => hab ((Hex.distance_to_eq_zero_iff a b).mp h)
    have hdq : ((a.distance_to b : Int) : Rat) ≠ 0 := Int.cast_ne_zero.mpr hdne
    constructor
    · -- head of the line is a
      simp only [Hex.line_to]
      rw [List.range_succ_eq_map, List.map_cons, List.head?_cons]
      have hs : (F.val ((0 : Nat) : Rat)).div (F.val ((a.distance_to b : Int) : Rat))
          = F.val 0 := by
        rw [Nat.cast_zero, F.div_val, if_neg hdq, zero_div]
      rw [hs]
      have hx0 : (F.val (a.x : Rat)).add
          (((F.val (b.x : Rat)).sub (F.val (a.x : Rat))).mul (F.val 0)) = F.val (a.x : Rat) := by
        simp only [F.sub_val, F.mul_val, F.add_val, F.val.injEq]
        ring
      have hy0 : (F.val (a.y : Rat)).add
          (((F.val (b.y : Rat)).sub (F.val (a.y : Rat))).mul (F.val 0)) = F.val (a.y : Rat) := by
        simp only [F.sub_val, F.mul_val, F.add_val, F.val.injEq]
        ring
      simp only [vec2Lerp, Hex.as_vec2, Hex.fromVec2]
      rw [hx0, hy0, Hex.round_intCast a.x a.y ha1 ha2 ha3 ha4]
    · -- last of the line is b
      simp only [Hex.line_to]
      rw [List.range_succ, List.map_append, List.map_cons, List.map_nil,
        List.getLast?_concat]
      have hcast : (((a.distance_to b).toNat : Nat) : Rat)
          = ((a.distance_to b : Int) : Rat) := by
        exact_mod_cast congrArg (fun k : Int => (k : Rat)) (Int.toNat_of_nonneg hd0)
      have hs : (F.val (((a.distance_to b).toNat : Nat) : Rat)).div
          (F.val ((a.distance_to b : Int) : Rat)) = F.val 1 := by
        rw [hcast, F.div_val, if_neg hdq, div_self hdq]
      rw [hs]
      have hx1 : (F.val (a.x : Rat)).add
          (((F.val (b.x : Rat)).sub (F.val (a.x : Rat))).mul (F.val 1)) = F.val (b.x : Rat) := by
        simp only [F.sub_val, F.mul_val, F.add_val, F.val.injEq]
        ring
      have hy1 : (F.val (a.y : Rat)).add
          (((F.val (b.y : Rat)).sub (F.val (a.y : Rat))).mul (F.val 1)) = F.val (b.y : Rat) := by
        simp only [F.sub_val, F.mul_val, F.add_val, F.val.injEq]
        ring
      simp only [vec2Lerp, Hex.as_vec2, Hex.fromVec2]
      rw [hx1, hy1, Hex.round_intCast b.x b.y hb1 hb2 hb3 hb4]
  · have hd : (Hex.new 0 0).distance_to (Hex.new 5 0) = 5 := by decide
    simp only [Hex.line_to, hd]
    rw [show ((5 : Int).toNat + 1) = 6 from rfl]
    rw [show List.range 6 = [0, 1, 2, 3, 4, 5] from rfl]
    simp only [List.map_cons, List.map_nil, List.cons.injEq, and_true]
    refine ⟨?_, ?_, ?_, ?_, ?_, ?_⟩ <;>
      exact lerp_round_point 0 0 5 0 _ 5 _ 0 (by decide) (by decide) (by decide) (by decide)
        (by norm_num) (by norm_num) (by norm_num)

/-- Claim C9 witness at `a = (0, 0)`, `b = (1, 0)`. -/
theorem claimC9_witness :
    (Hex.new 0 0).f32exact ∧ (Hex.new 1 0).f32exact ∧ Hex.new 0 0 ≠ Hex.new 1 0 ∧
    ((Hex.new 0 0).line_to (Hex.new 1 0)).head? = some (Hex.new 0 0) ∧
    ((Hex.new 0 0).line_to (Hex.new 1 0)).getLast? = some (Hex.new 1 0) := by
  have h := claimC9.2.1 (Hex.new 0 0) (Hex.new 1 0) (by decide) (by decide) (by decide)
  exact ⟨by decide, by decide, by decide, h.1, h.2⟩

/-- The number of cells contributed by row `i` (0-based, of the `2r+1` rows)
of the `range` enumeration, written with truncated subtraction. -/
def rowCount (r i : Nat) : Nat := 2 * r + 1 - (i - r) - (r - i)

lemma intRangeInc_length (a b : Int) : (intRangeInc a b).length = (b - a + 1).toNat := by
  simp [intRangeInc]

lemma sum_map_add_const (l : List Nat) (f : Nat → Nat) (c : Nat) :
    (l.map (fun j => f j + c)).sum = (l.map f).sum + c * l.length := by
  induction l with
  | nil => simp
  | cons a t ih =>
    simp only [List.map_cons, List.sum_cons, List.length_cons, ih]
    ring

lemma sum_rowCount (r : Nat) :
    ((List.range (2 * r + 1)).map (rowCount r)).sum = 3 * r * r + 3 * r + 1 := by
  induction r with
  | zero => decide
  | succ r ih =>
    rw [show 2 * (r + 1) + 1 = (2 * r + 1 + 1) + 1 by ring]
    rw [List.range_succ, List.map_append, List.sum_append]
    rw [List.range_succ_eq_map, List.map_cons, List.sum_cons, List.map_map]
    have h3 : (List.range (2 * r + 1)).map (rowCount (r + 1) ∘ Nat.succ)
        = (List.range (2 * r + 1)).map (fun j => rowCount r j + 2) := by
      apply List.map_congr_left
      intro j hj
      have hj2 := List.mem_range.mp hj
      simp only [Function.comp_apply, rowCount, Nat.succ_eq_add_one]
      omega
    rw [h3, sum_map_add_const, ih]
    simp only [List.map_cons, List.map_nil, List.sum_cons, List.sum_nil, List.length_range]
    unfold rowCount
    rw [show 3 * (r + 1) * (r + 1) = 3 * r * r + 6 * r + 3 by ring]
    generalize 3 * r * r = t
    omega

lemma intRangeInc_as_range (r : Nat) :
    intRangeInc (-(r : Int)) r
      = (List.range (2 * r + 1)).map (fun i : Nat => -(r : Int) + (i : Int)) := by
  unfold intRangeInc
  rw [show ((r : Int) - -(r : Int) + 1).toNat = 2 * r + 1 by omega]

lemma mem_intRangeInc {a b x : Int} (h : x ∈ intRangeInc a b) : a ≤ x ∧ x ≤ b := by
  unfold intRangeInc at h
  simp only [List.mem_map, List.mem_range] at h
  obtain ⟨i, hi, rfl⟩ := h
  omega

lemma wrap32_eq (v : Int) (h1 : -(2 ^ 31) ≤ v) (h2 : v < 2 ^ 31) : wrap32 v = v := by
  unfold wrap32
  omega

lemma u32_as_i32_eq (v : Nat) (h : v < 2 ^ 31) : u32_as_i32 v = v := by
  unfold u32_as_i32 wrap32
  omega

lemma Hex.range_eq (c : Hex) (range : Nat) :
    c.range range = (intRangeInc (wrap32 (-(u32_as_i32 range))) (u32_as_i32 range)).flatMap
      (fun x => (intRangeInc
          (max (wrap32 (-(u32_as_i32 range))) (wrap32 (-x - u32_as_i32 range)))
          (min (u32_as_i32 range) (wrap32 (u32_as_i32 range - x)))).map (fun y =>
        c.const_add ⟨x, y⟩)) := rfl

/-- For radii up to `2^30 - 1` none of the `i32` expressions in `range` can
wrap, so `range` coincides with the ideal enumeration. -/
lemma Hex.range_eq_of_small (c : Hex) (r : Nat) (hr : r ≤ 2 ^ 30 - 1) :
    c.range r = (intRangeInc (-(r : Int)) r).flatMap (fun x =>
      (intRangeInc (max (-(r : Int)) (-x - r)) (min (r : Int) ((r : Int) - x))).map (fun y =>
        c.const_add ⟨x, y⟩)) := by
  rw [Hex.range_eq]
  rw [u32_as_i32_eq r (by omega)]
  rw [wrap32_eq (-(r : Int)) (by omega) (by omega)]
  apply List.flatMap_congr
  intro x hx
  obtain ⟨hx1, hx2⟩ := mem_intRangeInc hx
  rw [wrap32_eq (-x - (r : Int)) (by omega) (by omega)]
  rw [wrap32_eq ((r : Int) - x) (by omega) (by omega)]

/-- For radii below the `i32`-safe bound the enumerated `range` has exactly
`3r^2 + 3r + 1` elements. -/
theorem Hex.range_length (c : Hex) (r : Nat) (hr : r ≤ 2 ^ 30 - 1) :
    (c.range r).length = 3 * r * r + 3 * r + 1 := by
  rw [Hex.range_eq_of_small c r hr]
  rw [List.length_flatMap]
  simp only [Function.comp_def, List.length_map, intRangeInc_length]
  rw [intRangeInc_as_range, List.map_map]
  rw [List.map_congr_left (g := rowCount r) ?_, sum_rowCount]
  intro i hi
  have hi2 := List.mem_range.mp hi
  simp only [Function.comp_apply, rowCount]
  omega

/-- Claim C4 counterexample: at `r = 37837` the `u32` computation of
`range_count` wraps modulo `2^32` and no longer matches the enumerated
cardinality `3r(r+1) + 1`. -/
theorem claimC4_counterexample :
    Hex.range_count 37837 ≠ ((Hex.new 0 0).range 37837).length := by
  rw [Hex.range_length (Hex.new 0 0) 37837 (by decide)]
  decide

/-- Claim C4 (amended): for every radius up to `2^30 - 1` (where no `i32`
expression inside `range` can wrap) the enumeration of `range(origin, r)` has
exactly `3r(r+1) + 1` elements, and `range_count(r)` agrees with it whenever
`3r(r+1) + 1` fits in a `u32` (all such radii are below `2^30`); in particular
at 0, 1, 2 and 15.  At radius `2^31 + 1` the `range as i32` cast wraps negative
and the enumeration is empty. -/
theorem claimC4 :
    (∀ r : Nat, r ≤ 2 ^ 30 - 1 → ((Hex.new 0 0).range r).length = 3 * r * (r + 1) + 1) ∧
    (∀ r : Nat, 3 * r * (r + 1) + 1 < 2 ^ 32 →
      Hex.range_count r = ((Hex.new 0 0).range r).length) ∧
    ((Hex.new 0 0).range (2 ^ 31 + 1)).length = 0 ∧
    Hex.range_count 0 = 1 ∧ Hex.range_count 1 = 7 ∧ Hex.range_count 2 = 19 ∧
    Hex.range_count 15 = 721 := by
  have hlen : ∀ r : Nat, r ≤ 2 ^ 30 - 1 →
      ((Hex.new 0 0).range r).length = 3 * r * (r + 1) + 1 := by
    intro r hr
    rw [Hex.range_length (Hex.new 0 0) r hr]
    ring
  refine ⟨hlen, ?_, by decide, by decide, by decide, by decide, by decide⟩
  intro r hr
  have hr37 : r ≤ 37836 := by
    by_contra hcon
    push_neg at hcon
    have h1 : 3 * 37837 ≤ 3 * r := by omega
    have h2 : 37838 ≤ r + 1 := by omega
    have h3 := Nat.mul_le_mul h1 h2
    omega
  rw [hlen r (by omega)]
  exact Nat.mod_eq_of_lt hr

/-- Claim C4 witness at `r = 15`, exercising both hypotheses. -/
theorem claimC4_witness :
    (15 : Nat) ≤ 2 ^ 30 - 1 ∧
    ((Hex.new 0 0).range 15).length = 3 * 15 * (15 + 1) + 1 ∧
    3 * 15 * (15 + 1) + 1 < 2 ^ 32 ∧
    Hex.range_count 15 = ((Hex.new 0 0).range 15).length :=
  ⟨by decide, claimC4.1 15 (by decide), by decide, claimC4.2.1 15 (by decide)⟩

end Hexx
